import Mathlib

/-!
Verification of the expense-form validator of `redovisa`
(`src/redovisa/static/functions.js`).

The JavaScript validator `updateForm` reads the live form state, computes a
total over all elements of class `"amount"`, renders it with two fractional
digits, counts required-field violations over the form fields named
`"<row>:amount"`, `"<row>:account"`, `"<row>:description"`, and toggles the
submit control.  `disableSubmitDefault` disables the submit control and is
installed as the page-load handler.

Modelling decisions:
* JavaScript numbers are modelled exactly.  Every number the script
  manipulates arises from `parseFloat` on a decimal literal and addition, so
  all values are decimal fixed-point numbers `num / 10 ^ exp`; the `Decimal`
  structure represents them this way with fully executable integer
  arithmetic, and `Decimal.val` maps a representation to the rational it
  denotes.  `parseFloat` returning `NaN` is modelled as `none : Option
  Decimal`.  The model omits the `Infinity` literal, which the form never
  produces, and treats arithmetic as exact (the amounts a user can type are
  far below the range where double rounding is observable at two fractional
  digits).
* The DOM state visible to the script is a `Dom` record: the ordered values
  of the class-`"amount"` elements, the form's named-field lookup (`none`
  models a missing field, on which the JS `.value` access would throw a
  `TypeError`), the text of the `"total"` element and the `disabled` flag of
  the `"submit"` element.
* `updateForm` returns the resulting `Dom` together with a `Bool` that is
  `true` exactly when a named-field lookup failed; in that case the JS run
  aborts after the total display was already written, which the model
  reproduces.
-/

namespace Redovisa

/-- Decimal fixed-point number: the rational `num / 10 ^ exp`.  All numbers
produced by the script (parsed amounts, their sums, the rounding offset of
`toFixed`) have this form. -/
structure Decimal where
  num : ℤ
  exp : ℕ
deriving DecidableEq

namespace Decimal

/-- Rational value denoted by a `Decimal`. -/
def val (x : Decimal) : ℚ := (x.num : ℚ) / 10 ^ x.exp

/-- The number `0`. -/
def zero : Decimal := ⟨0, 0⟩

/-- Exact addition (denominators are multiplied, no normalization needed). -/
def add (x y : Decimal) : Decimal :=
  ⟨x.num * 10 ^ y.exp + y.num * 10 ^ x.exp, x.exp + y.exp⟩

/-- Negation. -/
def neg (x : Decimal) : Decimal := ⟨-x.num, x.exp⟩

/-- Exact multiplication by an integer power of ten. -/
def mulPow10 (x : Decimal) (e : ℤ) : Decimal :=
  if 0 ≤ e then ⟨x.num * 10 ^ e.toNat, x.exp⟩ else ⟨x.num, x.exp + (-e).toNat⟩

/-- JavaScript `x == 0` (value equality; the denominator is a positive power
of ten, so the value is zero exactly when the numerator is). -/
def isZero (x : Decimal) : Bool := x.num == 0

/-- JavaScript `x < 0`. -/
def isNeg (x : Decimal) : Bool := decide (x.num < 0)

/-- JavaScript `x > 0`. -/
def isPos (x : Decimal) : Bool := decide (0 < x.num)

/-- Mathematical floor of the denoted value (Euclidean division by the
positive denominator). -/
def floor (x : Decimal) : ℤ := x.num / (10 ^ x.exp : ℤ)

theorem val_zero : zero.val = 0 := by unfold zero val; norm_num

theorem pow10_ne_zero (k : ℕ) : ((10 : ℚ) ^ k) ≠ 0 := pow_ne_zero _ (by norm_num)

theorem pow10_pos (k : ℕ) : (0 : ℚ) < 10 ^ k := pow_pos (by norm_num) _

theorem val_add (x y : Decimal) : (x.add y).val = x.val + y.val := by
  unfold add val
  have hx := pow10_ne_zero x.exp
  have hy := pow10_ne_zero y.exp
  push_cast
  rw [pow_add, div_add_div _ _ hx hy]
  ring

theorem val_neg (x : Decimal) : x.neg.val = -x.val := by
  unfold neg val
  push_cast
  ring

theorem val_mulPow10 (x : Decimal) (e : ℤ) : (x.mulPow10 e).val = x.val * (10 : ℚ) ^ e := by
  unfold mulPow10 val
  by_cases he : 0 ≤ e
  · rw [if_pos he]
    have h1 : ((10 : ℚ)) ^ e = (10 : ℚ) ^ e.toNat := by
      rw [← zpow_natCast, Int.toNat_of_nonneg he]
    rw [h1]
    push_cast
    ring
  · rw [if_neg he]
    have h0 : ((-e).toNat : ℤ) = -e := Int.toNat_of_nonneg (by omega)
    have h1 : ((10 : ℚ)) ^ e = ((10 : ℚ) ^ (-e).toNat)⁻¹ := by
      rw [← zpow_natCast, h0, zpow_neg, inv_inv]
    rw [h1]
    have h2 := pow10_ne_zero x.exp
    have h3 := pow10_ne_zero (-e).toNat
    push_cast
    rw [pow_add]
    field_simp

theorem isZero_iff (x : Decimal) : x.isZero = true ↔ x.val = 0 := by
  unfold isZero val
  rw [beq_iff_eq, div_eq_zero_iff]
  constructor
  · intro h; left; exact_mod_cast h
  · rintro (h | h)
    · exact_mod_cast h
    · exact absurd h (pow10_ne_zero x.exp)

theorem isPos_iff (x : Decimal) : x.isPos = true ↔ 0 < x.val := by
  unfold isPos val
  rw [decide_eq_true_eq]
  constructor
  · intro h
    exact div_pos (by exact_mod_cast h) (pow10_pos x.exp)
  · intro h
    by_contra hn
    have hle : (x.num : ℚ) ≤ 0 := by exact_mod_cast not_lt.1 hn
    have : (x.num : ℚ) / 10 ^ x.exp ≤ 0 :=
      div_nonpos_of_nonpos_of_nonneg hle (le_of_lt (pow10_pos x.exp))
    exact absurd h (not_lt.2 this)

theorem isNeg_iff (x : Decimal) : x.isNeg = true ↔ x.val < 0 := by
  unfold isNeg val
  rw [decide_eq_true_eq]
  constructor
  · intro h
    exact div_neg_of_neg_of_pos (by exact_mod_cast h) (pow10_pos x.exp)
  · intro h
    by_contra hn
    have hle : (0 : ℚ) ≤ (x.num : ℚ) := by exact_mod_cast not_lt.1 hn
    have : (0 : ℚ) ≤ (x.num : ℚ) / 10 ^ x.exp :=
      div_nonneg hle (le_of_lt (pow10_pos x.exp))
    exact absurd h (not_lt.2 this)

theorem floor_val (x : Decimal) : x.floor = ⌊x.val⌋ := by
  unfold floor val
  have h1 : ((10 : ℚ)) ^ x.exp = ((10 ^ x.exp : ℕ) : ℚ) := by push_cast; ring
  rw [h1, Rat.floor_intCast_div_natCast]
  push_cast
  ring

end Decimal

/-- JavaScript whitespace characters skipped by `parseFloat` (the ASCII ones). -/
def jsWhitespace (c : Char) : Bool :=
  c = ' ' || c = '\t' || c = '\n' || c = '\r' || c = '\x0b' || c = '\x0c'

/-- Numeric value of an ASCII digit character. -/
def digitVal (c : Char) : ℕ := c.toNat - '0'.toNat

/-- Value of a list of ASCII digit characters read as a decimal numeral. -/
def digitsVal (ds : List Char) : ℕ := ds.foldl (fun a c => 10 * a + digitVal c) 0

/-- Consume an optional leading sign, returning the sign as `±1` and the rest. -/
def parseSign : List Char → ℤ × List Char
  | '+' :: cs => (1, cs)
  | '-' :: cs => (-1, cs)
  | cs => (1, cs)

/-- Model of JavaScript `parseFloat` on a list of characters: skip leading
whitespace, read an optional sign, then the longest prefix of the form
`digits`, `digits.digits` or `.digits`, with an optional exponent part that
is only consumed when it has at least one digit.  `none` models `NaN` (no
numeric prefix at all); trailing garbage after the numeric prefix is
ignored.  The value is `sign * (intPart + fracPart / 10 ^ fracLen) * 10 ^ e`,
built here as the decimal fixed-point number
`sign * (intPart * 10 ^ fracLen + fracPart) / 10 ^ fracLen` times `10 ^ e`. -/
def parseFloatChars (cs : List Char) : Option Decimal :=
  let cs0 := cs.dropWhile jsWhitespace
  let sc := parseSign cs0
  let intDs := sc.2.takeWhile Char.isDigit
  let cs1 := sc.2.dropWhile Char.isDigit
  let fracDs :=
    match cs1 with
    | '.' :: rest => rest.takeWhile Char.isDigit
    | _ => []
  let cs2 :=
    match cs1 with
    | '.' :: rest => rest.dropWhile Char.isDigit
    | _ => cs1
  if intDs = [] ∧ fracDs = [] then none
  else
    let mantissa : Decimal :=
      ⟨sc.1 * ((digitsVal intDs : ℤ) * 10 ^ fracDs.length + (digitsVal fracDs : ℤ)),
        fracDs.length⟩
    let expo : ℤ :=
      match cs2 with
      | c :: rest =>
        if c = 'e' ∨ c = 'E' then
          let esc := parseSign rest
          let expDs := esc.2.takeWhile Char.isDigit
          if expDs = [] then 0 else esc.1 * (digitsVal expDs : ℤ)
        else 0
      | [] => 0
    some (mantissa.mulPow10 expo)

/-- Model of JavaScript `parseFloat` on strings. -/
def parseFloat (s : String) : Option Decimal := parseFloatChars s.data

/-- JavaScript truthiness of a number-or-NaN: `NaN` and `0` are falsy. -/
def jsTruthy : Option Decimal → Bool
  | none => false
  | some q => !q.isZero

/-- JavaScript comparison `x > 0` for a number-or-NaN: false on `NaN`. -/
def jsPos : Option Decimal → Bool
  | none => false
  | some q => q.isPos

/-- Total-amount loop of `updateForm` (functions.js lines 4-7): fold over the
values of the class-`"amount"` elements, adding `parseFloat(v)` whenever it
is truthy. -/
def totalOf (amounts : List String) : Decimal :=
  amounts.foldl
    (fun total v =>
      if jsTruthy (parseFloat v) then total.add ((parseFloat v).getD Decimal.zero) else total)
    Decimal.zero

/-- Two-digit zero-padded decimal numeral of `m < 100`. -/
def pad2 (m : ℕ) : String := if m < 10 then "0" ++ toString m else toString m

/-- Model of JavaScript `Number.prototype.toFixed(2)` for the finite,
moderately sized values the form produces: strip the sign, round `100·|x|`
to the nearest integer with ties away from zero (the larger candidate, per
the ECMAScript algorithm), and print with exactly two fractional digits. -/
def toFixed2 (x : Decimal) : String :=
  (if x.isNeg then "-" else "")
    ++ toString ((((if x.isNeg then x.neg else x).mulPow10 2).add ⟨5, 1⟩).floor.toNat / 100)
    ++ "."
    ++ pad2 ((((if x.isNeg then x.neg else x).mulPow10 2).add ⟨5, 1⟩).floor.toNat % 100)

/-- Rendering of `toFixed(2)` as a function of the exact rational value. -/
def ratToFixed2 (q : ℚ) : String :=
  (if q < 0 then "-" else "")
    ++ toString ((⌊(if q < 0 then -q else q) * 100 + 1 / 2⌋).toNat / 100)
    ++ "."
    ++ pad2 ((⌊(if q < 0 then -q else q) * 100 + 1 / 2⌋).toNat % 100)

/-- DOM state visible to functions.js: the values of the class-`"amount"`
elements in document order, the named-field lookup of the form `"expense"`
(`none` models a field that is absent, on which the JS `.value` access would
throw), the text content of the `"total"` element, and the `disabled`
attribute of the `"submit"` element. -/
structure Dom where
  amountElems : List String
  formField : String → Option String
  totalDisplay : String
  submitDisabled : Bool

/-- Form-field name built by `updateForm`: `row + ":" + field`. -/
def fieldName (row : ℕ) (f : String) : String := toString row ++ ":" ++ f

/-- Body of the required-field loop for one row (functions.js lines 18-19):
the number of `missing_required` increments the row contributes. -/
def rowMissing (amount : Option Decimal) (account description : String) : ℕ :=
  (if jsPos amount && (account == "") then 1 else 0) +
    (if jsPos amount && (description == "") then 1 else 0)

/-- Required-field loop of `updateForm` (functions.js lines 12-20) over a
list of row indices: for each row, look up the three named fields (failing,
like the JS `.value` access on an absent field, when one is missing) and
accumulate `missing_required`. -/
def missingRequiredAux (f : String → Option String) : List ℕ → Option ℕ
  | [] => some 0
  | row :: rest => do
    let a ← f (fieldName row "amount")
    let acct ← f (fieldName row "account")
    let desc ← f (fieldName row "description")
    let m ← missingRequiredAux f rest
    return rowMissing (parseFloat a) acct desc + m

/-- The `missing_required` counter computed by `updateForm` over all rows
indexed by the class-`"amount"` elements. -/
def missingRequired (dom : Dom) : Option ℕ :=
  missingRequiredAux dom.formField (List.range dom.amountElems.length)

/-- Model of `updateForm` (functions.js lines 1-27).  Returns the updated
DOM state and a flag that is `true` exactly when a named-field lookup
failed; in that case the JS handler throws after the total display was
already updated, so the returned state carries the new total but the
untouched submit flag. -/
def updateForm (dom : Dom) : Dom × Bool :=
  let total := totalOf dom.amountElems
  let dom1 := { dom with totalDisplay := toFixed2 total }
  match missingRequired dom1 with
  | none => (dom1, true)
  | some m =>
    if total.isZero = true ∨ 0 < m then
      ({ dom1 with submitDisabled := true }, false)
    else
      ({ dom1 with submitDisabled := false }, false)

/-- Model of `disableSubmitDefault` (functions.js lines 29-31):
unconditionally disable the submit control. -/
def disableSubmitDefault (dom : Dom) : Dom := { dom with submitDisabled := true }

/-- The page-load handler installed by functions.js line 33
(`window.onload = disableSubmitDefault`). -/
def onload : Dom → Dom := disableSubmitDefault

/-- A line item of the expense form: the values of its three form fields. -/
structure Row where
  amount : String
  account : String
  description : String
deriving DecidableEq, Inhabited

/-- Named-field lookup of a form rendered from `rows`, following the
convention of spec section 6: for each row index the three fields
`"<row>:amount"`, `"<row>:account"`, `"<row>:description"` exist and hold
that row's values; every other name is absent. -/
def rowsField (rows : List Row) (name : String) : Option String :=
  (List.range rows.length).foldr
    (fun i acc =>
      if name = fieldName i "amount" then some (rows.getD i default).amount
      else if name = fieldName i "account" then some (rows.getD i default).account
      else if name = fieldName i "description" then some (rows.getD i default).description
      else acc)
    none

/-- Modelled from the spec: the HTML form markup (rendered by server-side
templates that are not among the supplied sources) as described in spec
section 6 — the class-`"amount"` elements are exactly the rows' amount
fields in order, and the named fields follow the `"<row>:<field>"`
convention. -/
def domOfRows (rows : List Row) : Dom where
  amountElems := rows.map Row.amount
  formField := rowsField rows
  totalDisplay := ""
  submitDisabled := true

/-- Coherence of a DOM state with a list of line items: the class-`"amount"`
element values are the rows' amounts in order, and the named-field lookup
resolves each row's three conventional names to that row's field values. -/
def coherent (dom : Dom) (rows : List Row) : Prop :=
  dom.amountElems = rows.map Row.amount ∧
    ∀ i, (h : i < rows.length) →
      dom.formField (fieldName i "amount") = some (rows.get ⟨i, h⟩).amount ∧
      dom.formField (fieldName i "account") = some (rows.get ⟨i, h⟩).account ∧
      dom.formField (fieldName i "description") = some (rows.get ⟨i, h⟩).description

instance (dom : Dom) (rows : List Row) : Decidable (coherent dom rows) := by
  unfold coherent; infer_instance

/-- Spec-level total of a list of line items, as an exact rational. -/
def rowsTotal (rows : List Row) : ℚ := (totalOf (rows.map Row.amount)).val

/-- Required-field violations contributed by one line item. -/
def rowMissingOf (r : Row) : ℕ := rowMissing (parseFloat r.amount) r.account r.description

/-- Spec-level violation count of a list of line items. -/
def rowsMissing (rows : List Row) : ℕ := (rows.map rowMissingOf).sum

/-- Some line item has a strictly positive parsed amount and an empty
account or an empty description. -/
def hasViolation (rows : List Row) : Prop :=
  ∃ r ∈ rows, jsPos (parseFloat r.amount) = true ∧ (r.account = "" ∨ r.description = "")

instance (rows : List Row) : Decidable (hasViolation rows) := by
  unfold hasViolation; infer_instance

/-- Positivity test used by the per-row check, read at the value level: the
amount parses and its value is strictly positive. -/
theorem jsPos_iff (o : Option Decimal) :
    jsPos o = true ↔ ∃ q, o = some q ∧ 0 < q.val := by
  cases o with
  | none => simp [jsPos]
  | some q => simp [jsPos, Decimal.isPos_iff]

/-- Contribution of one amount value to the total: the parsed value, or zero
when parsing fails. -/
def amountContrib (v : String) : ℚ := ((parseFloat v).getD Decimal.zero).val

theorem amountContrib_eq_zero_of_not_truthy (v : String)
    (h : jsTruthy (parseFloat v) = false) : amountContrib v = 0 := by
  unfold amountContrib jsTruthy at *
  cases hp : parseFloat v with
  | none => simp [Decimal.val_zero]
  | some q =>
    rw [hp] at h
    simp only [Option.getD_some]
    exact (Decimal.isZero_iff q).1 (by simpa using h)

theorem totalOf_val_foldl (l : List String) (acc : Decimal) :
    (l.foldl
        (fun total v =>
          if jsTruthy (parseFloat v) then total.add ((parseFloat v).getD Decimal.zero)
          else total)
        acc).val
      = acc.val + (l.map amountContrib).sum := by
  induction l generalizing acc with
  | nil => simp
  | cons v rest ih =>
    simp only [List.foldl_cons, List.map_cons, List.sum_cons, ih]
    by_cases h : jsTruthy (parseFloat v) = true
    · simp only [h, if_true, Decimal.val_add]
      unfold amountContrib
      ring
    · rw [Bool.not_eq_true] at h
      rw [amountContrib_eq_zero_of_not_truthy v h]
      simp [h]

/-- The total-amount loop computes the sum of the parseable amounts, with
unparseable amounts contributing zero. -/
theorem totalOf_val (l : List String) : (totalOf l).val = (l.map amountContrib).sum := by
  have := totalOf_val_foldl l Decimal.zero
  rw [Decimal.val_zero] at this
  simpa [totalOf] using this

theorem pad2_length : ∀ m, m < 100 → (pad2 m).length = 2 := by decide

/-- Every string produced by `toFixed2` ends in a decimal point followed by
exactly two digits. -/
theorem toFixed2_shape (x : Decimal) :
    ∃ pre post, toFixed2 x = pre ++ "." ++ post ∧ post.length = 2 := by
  refine ⟨(if x.isNeg then "-" else "")
      ++ toString ((((if x.isNeg then x.neg else x).mulPow10 2).add ⟨5, 1⟩).floor.toNat / 100),
    pad2 ((((if x.isNeg then x.neg else x).mulPow10 2).add ⟨5, 1⟩).floor.toNat % 100), rfl, ?_⟩
  exact pad2_length _ (Nat.mod_lt _ (by norm_num))

/-- The rendered string depends only on the denoted rational value. -/
theorem toFixed2_eq_ratToFixed2 (x : Decimal) : toFixed2 x = ratToFixed2 x.val := by
  have hfloor : ∀ y : Decimal, ((y.mulPow10 2).add ⟨5, 1⟩).floor = ⌊y.val * 100 + 1 / 2⌋ := by
    intro y
    rw [Decimal.floor_val, Decimal.val_add, Decimal.val_mulPow10]
    have h5 : (Decimal.mk 5 1).val = 1 / 2 := by unfold Decimal.val; norm_num
    have h100 : ((10 : ℚ)) ^ (2 : ℤ) = 100 := by norm_num
    rw [h5, h100]
  unfold toFixed2 ratToFixed2
  by_cases hneg : x.isNeg = true
  · have hv : x.val < 0 := (Decimal.isNeg_iff x).1 hneg
    rw [if_pos hneg, if_pos hneg, if_pos hv, hfloor x.neg, Decimal.val_neg, if_pos hv]
  · have hv : ¬ x.val < 0 := fun hc => hneg ((Decimal.isNeg_iff x).2 hc)
    rw [if_neg hneg, if_neg hneg, if_neg hv, hfloor x, if_neg hv]

/-- Unfolding equation for `updateForm`. -/
theorem updateForm_eq (dom : Dom) :
    updateForm dom =
      match missingRequired { dom with totalDisplay := toFixed2 (totalOf dom.amountElems) } with
      | none => ({ dom with totalDisplay := toFixed2 (totalOf dom.amountElems) }, true)
      | some m =>
        if (totalOf dom.amountElems).isZero = true ∨ 0 < m then
          ({ dom with totalDisplay := toFixed2 (totalOf dom.amountElems), submitDisabled := true }, false)
        else
          ({ dom with totalDisplay := toFixed2 (totalOf dom.amountElems), submitDisabled := false }, false) :=
  rfl

theorem updateForm_totalDisplay (dom : Dom) :
    (updateForm dom).1.totalDisplay = toFixed2 (totalOf dom.amountElems) := by
  rw [updateForm_eq]
  cases missingRequired { dom with totalDisplay := toFixed2 (totalOf dom.amountElems) } with
  | none => rfl
  | some m =>
    by_cases h : (totalOf dom.amountElems).isZero = true ∨ 0 < m
    · simp only [h, if_true]
    · simp only [h, if_false]

theorem updateForm_amountElems (dom : Dom) :
    (updateForm dom).1.amountElems = dom.amountElems := by
  rw [updateForm_eq]
  cases missingRequired { dom with totalDisplay := toFixed2 (totalOf dom.amountElems) } with
  | none => rfl
  | some m =>
    by_cases h : (totalOf dom.amountElems).isZero = true ∨ 0 < m
    · simp only [h, if_true]
    · simp only [h, if_false]

theorem updateForm_formField (dom : Dom) :
    (updateForm dom).1.formField = dom.formField := by
  rw [updateForm_eq]
  cases missingRequired { dom with totalDisplay := toFixed2 (totalOf dom.amountElems) } with
  | none => rfl
  | some m =>
    by_cases h : (totalOf dom.amountElems).isZero = true ∨ 0 < m
    · simp only [h, if_true]
    · simp only [h, if_false]

theorem missingRequiredAux_coherent (dom : Dom) (rows : List Row) (h : coherent dom rows) :
    ∀ is : List ℕ, (∀ i ∈ is, i < rows.length) →
      missingRequiredAux dom.formField is
        = some ((is.map fun i => rowMissingOf (rows.getD i default)).sum) := by
  intro is
  induction is with
  | nil => intro _; rfl
  | cons row rest ih =>
    intro hb
    have hr : row < rows.length := hb row (List.mem_cons_self row rest)
    obtain ⟨ha, hacc, hdesc⟩ := h.2 row hr
    have hrest := ih fun i hi => hb i (List.mem_cons_of_mem row hi)
    simp only [missingRequiredAux, ha, hacc, hdesc, hrest, Option.some_bind, List.map_cons,
      List.sum_cons]
    have hg : rows.getD row default = rows.get ⟨row, hr⟩ := by
      rw [List.getD_eq_getElem rows default hr, List.get_eq_getElem]
    unfold rowMissingOf
    rw [hg]
    rfl

theorem map_range_getD {α β : Type _} (l : List α) (d : α) (g : α → β) :
    ((List.range l.length).map fun i => g (l.getD i d)) = l.map g := by
  apply List.ext_getElem
  · simp
  · intro n h1 h2
    have hn : n < l.length := by simpa using h2
    simp only [List.getElem_map, List.getElem_range, List.getD_eq_getElem l d hn]

theorem missingRequired_coherent (dom : Dom) (rows : List Row) (h : coherent dom rows) :
    missingRequired dom = some (rowsMissing rows) := by
  unfold missingRequired
  have hlen : dom.amountElems.length = rows.length := by rw [h.1, List.length_map]
  rw [hlen,
    missingRequiredAux_coherent dom rows h (List.range rows.length) fun i hi => List.mem_range.1 hi,
    map_range_getD rows default rowMissingOf]
  rfl

/-- Central correctness equation: on a DOM state coherent with a list of
line items, `updateForm` writes the formatted spec-level total, sets the
submit flag from the spec-level gate, and does not throw. -/
theorem updateForm_coherent (dom : Dom) (rows : List Row) (h : coherent dom rows) :
    updateForm dom
      = ({ dom with totalDisplay := toFixed2 (totalOf (rows.map Row.amount)), submitDisabled := decide ((totalOf (rows.map Row.amount)).isZero = true ∨ 0 < rowsMissing rows) }, false) := by
  have ht : totalOf dom.amountElems = totalOf (rows.map Row.amount) := by rw [h.1]
  have h1 : coherent { dom with totalDisplay := toFixed2 (totalOf dom.amountElems) } rows := h
  have hm := missingRequired_coherent _ rows h1
  rw [updateForm_eq, hm, ht]
  by_cases hc : (totalOf (rows.map Row.amount)).isZero = true ∨ 0 < rowsMissing rows
  · simp [hc]
  · simp [hc]

theorem totalOf_isZero_iff (rows : List Row) :
    (totalOf (rows.map Row.amount)).isZero = true ↔ rowsTotal rows = 0 :=
  Decimal.isZero_iff _

theorem rowsTotal_ne_zero (rows : List Row)
    (h : (totalOf (rows.map Row.amount)).isZero = false) : rowsTotal rows ≠ 0 := by
  intro h0
  rw [(totalOf_isZero_iff rows).2 h0] at h
  cases h

theorem rowMissingOf_eq_zero_iff (r : Row) :
    rowMissingOf r = 0
      ↔ ¬(jsPos (parseFloat r.amount) = true ∧ (r.account = "" ∨ r.description = "")) := by
  unfold rowMissingOf rowMissing
  by_cases hp : jsPos (parseFloat r.amount) = true <;>
    by_cases ha : r.account = "" <;>
      by_cases hd : r.description = "" <;>
        simp [hp, ha, hd]

theorem rowsMissing_pos_iff (rows : List Row) : 0 < rowsMissing rows ↔ hasViolation rows := by
  rw [Nat.pos_iff_ne_zero]
  unfold rowsMissing hasViolation
  rw [Ne, List.sum_eq_zero_iff]
  push_neg
  constructor
  · rintro ⟨x, hx, hxne⟩
    obtain ⟨r, hr, rfl⟩ := List.mem_map.1 hx
    refine ⟨r, hr, ?_⟩
    by_contra hcon
    exact hxne ((rowMissingOf_eq_zero_iff r).2 hcon)
  · rintro ⟨r, hr, hviol⟩
    refine ⟨rowMissingOf r, List.mem_map_of_mem _ hr, ?_⟩
    intro h0
    exact (rowMissingOf_eq_zero_iff r).1 h0 hviol

theorem list_set_get_self {α : Type _} (l : List α) (i : ℕ) (h : i < l.length) :
    l.set i (l.get ⟨i, h⟩) = l := by
  apply List.ext_getElem (by simp)
  intro n h1 h2
  simp only [List.getElem_set, List.get_eq_getElem]
  by_cases hin : i = n
  · subst hin; simp
  · simp [hin]

/-- Modelled from the spec: presence of the conventionally named form fields
for every row counted by the class-`"amount"` elements (spec section 6); the
HTML form markup itself is rendered by server-side templates that are not
among the supplied sources. -/
def fieldsPresent (dom : Dom) : Prop :=
  ∀ i, i < dom.amountElems.length →
    (dom.formField (fieldName i "amount")).isSome = true ∧
    (dom.formField (fieldName i "account")).isSome = true ∧
    (dom.formField (fieldName i "description")).isSome = true

instance (dom : Dom) : Decidable (fieldsPresent dom) := by
  unfold fieldsPresent; infer_instance

theorem missingRequiredAux_isSome (f : String → Option String) :
    ∀ is : List ℕ,
      (∀ i ∈ is,
        (f (fieldName i "amount")).isSome = true ∧
        (f (fieldName i "account")).isSome = true ∧
        (f (fieldName i "description")).isSome = true) →
      (missingRequiredAux f is).isSome = true := by
  intro is
  induction is with
  | nil => intro _; rfl
  | cons row rest ih =>
    intro hb
    obtain ⟨ha, hacc, hdesc⟩ := hb row (List.mem_cons_self row rest)
    have hrest := ih fun i hi => hb i (List.mem_cons_of_mem row hi)
    obtain ⟨a, hae⟩ := Option.isSome_iff_exists.1 ha
    obtain ⟨acct, hacce⟩ := Option.isSome_iff_exists.1 hacc
    obtain ⟨desc, hdesce⟩ := Option.isSome_iff_exists.1 hdesc
    obtain ⟨m, hme⟩ := Option.isSome_iff_exists.1 hrest
    simp [missingRequiredAux, hae, hacce, hdesce, hme]

/-- Variant of the required-field loop that reads each row's amount from the
class-`"amount"` element values (the total loop's read path) instead of the
named form field, for comparison with `missingRequired`. -/
def missingRequiredElemsAux (amounts : List String) (f : String → Option String) :
    List ℕ → Option ℕ
  | [] => some 0
  | row :: rest => do
    let acct ← f (fieldName row "account")
    let desc ← f (fieldName row "description")
    let m ← missingRequiredElemsAux amounts f rest
    return rowMissing (parseFloat (amounts.getD row "")) acct desc + m

/-- The violation count recomputed with every amount read from the
class-`"amount"` elements. -/
def missingRequiredElems (dom : Dom) : Option ℕ :=
  missingRequiredElemsAux dom.amountElems dom.formField (List.range dom.amountElems.length)

/-- C1: on a DOM state coherent with a set of line items, `updateForm` sets
the submit control disabled exactly when the computed total equals zero or
some line item with strictly positive parsed amount has an empty account or
an empty description; in every other case it sets the submit control
enabled. -/
theorem updateForm_submit_gate (dom : Dom) (rows : List Row) (h : coherent dom rows) :
    (updateForm dom).1.submitDisabled = true ↔ rowsTotal rows = 0 ∨ hasViolation rows := by
  rw [updateForm_coherent dom rows h]
  simp only [decide_eq_true_eq]
  exact or_congr (totalOf_isZero_iff rows) (rowsMissing_pos_iff rows)

theorem updateForm_submit_gate_witness :
    (updateForm (domOfRows [⟨"10", "acct", "desc"⟩])).1.submitDisabled = true
      ↔ rowsTotal [(⟨"10", "acct", "desc"⟩ : Row)] = 0
        ∨ hasViolation [(⟨"10", "acct", "desc"⟩ : Row)] :=
  updateForm_submit_gate _ _ (by decide)

/-- C2: the displayed total always equals the arithmetic sum of the
parseable amounts (empty or non-numeric amounts contributing zero) rendered
with exactly two fractional digits, and the example amounts "10", "abc",
"5.5" yield the displayed total "15.50". -/
theorem updateForm_total_is_sum :
    (∀ dom : Dom,
        (updateForm dom).1.totalDisplay = ratToFixed2 ((dom.amountElems.map amountContrib).sum)) ∧
    (∀ dom : Dom,
        ∃ pre post, (updateForm dom).1.totalDisplay = pre ++ "." ++ post ∧ post.length = 2) ∧
    (updateForm (domOfRows [⟨"10", "", ""⟩, ⟨"abc", "", ""⟩, ⟨"5.5", "", ""⟩])).1.totalDisplay
      = "15.50" := by
  refine ⟨fun dom => ?_, fun dom => ?_, ?_⟩
  · rw [updateForm_totalDisplay, toFixed2_eq_ratToFixed2, totalOf_val]
  · rw [updateForm_totalDisplay]; exact toFixed2_shape _
  · decide

/-- C3 counterexample: for the single all-empty line item every
positive-amount row trivially has both required fields non-empty (there is
no such row), yet `updateForm` sets the submit control disabled, because the
total is zero. -/
theorem noViolation_yet_disabled :
    ¬ hasViolation [(⟨"", "", ""⟩ : Row)] ∧
      (updateForm (domOfRows [(⟨"", "", ""⟩ : Row)])).1.submitDisabled = true :=
  ⟨by decide, by decide⟩

/-- C3 (amended): on a DOM state coherent with a set of line items in which
no line item with strictly positive parsed amount has an empty account or an
empty description, and whose computed total is non-zero, `updateForm` sets
the submit control enabled. -/
theorem updateForm_complete_rows_enabled (dom : Dom) (rows : List Row) (h : coherent dom rows)
    (hnv : ¬ hasViolation rows) (ht : rowsTotal rows ≠ 0) :
    (updateForm dom).1.submitDisabled = false := by
  rw [updateForm_coherent dom rows h]
  simp only [decide_eq_false_iff_not, not_or]
  exact ⟨fun hz => ht ((totalOf_isZero_iff rows).1 hz),
    fun hp => hnv ((rowsMissing_pos_iff rows).1 hp)⟩

theorem updateForm_complete_rows_enabled_witness :
    (updateForm (domOfRows [⟨"20.00", "Food", "lunch"⟩])).1.submitDisabled = false :=
  updateForm_complete_rows_enabled (domOfRows [⟨"20.00", "Food", "lunch"⟩])
    [⟨"20.00", "Food", "lunch"⟩] (by decide) (by decide)
    (rowsTotal_ne_zero [⟨"20.00", "Food", "lunch"⟩] (by decide))

/-- C4: a line item whose amount is non-positive or non-numeric contributes
no required-field violation, and replacing its account and description by
any strings changes neither the submit decision nor the displayed total of
`updateForm`. -/
theorem nonpositive_row_never_blocks (rows : List Row) (i : ℕ) (h : i < rows.length)
    (hnp : ¬ jsPos (parseFloat (rows.get ⟨i, h⟩).amount) = true) (a d : String) :
    rowMissingOf (rows.get ⟨i, h⟩) = 0 ∧
      ∀ dom dom' : Dom, coherent dom rows →
        coherent dom' (rows.set i ⟨(rows.get ⟨i, h⟩).amount, a, d⟩) →
        (updateForm dom').1.submitDisabled = (updateForm dom).1.submitDisabled ∧
          (updateForm dom').1.totalDisplay = (updateForm dom).1.totalDisplay := by
  have hr0 : rowMissingOf (rows.get ⟨i, h⟩) = 0 :=
    (rowMissingOf_eq_zero_iff _).2 fun hc => hnp hc.1
  refine ⟨hr0, ?_⟩
  intro dom dom' hc hc'
  have hamounts : (rows.set i ⟨(rows.get ⟨i, h⟩).amount, a, d⟩).map Row.amount
      = rows.map Row.amount := by
    apply List.ext_getElem (by simp)
    intro n h1 h2
    simp only [List.getElem_map, List.getElem_set]
    by_cases hin : i = n
    · subst hin; simp [List.get_eq_getElem]
    · simp [hin]
  have hmiss : rowsMissing (rows.set i ⟨(rows.get ⟨i, h⟩).amount, a, d⟩) = rowsMissing rows := by
    unfold rowsMissing
    have hmaps : (rows.set i ⟨(rows.get ⟨i, h⟩).amount, a, d⟩).map rowMissingOf
        = rows.map rowMissingOf := by
      apply List.ext_getElem (by simp)
      intro n h1 h2
      simp only [List.getElem_map, List.getElem_set]
      by_cases hin : i = n
      · subst hin
        have h2' : rowMissingOf (⟨(rows.get ⟨i, h⟩).amount, a, d⟩ : Row) = 0 :=
          (rowMissingOf_eq_zero_iff _).2 fun hc2 => hnp hc2.1
        rw [if_pos rfl]
        show rowMissingOf ⟨(rows.get ⟨i, h⟩).amount, a, d⟩ = rowMissingOf (rows.get ⟨i, h⟩)
        rw [h2', hr0]
      · simp [hin]
    rw [hmaps]
  have e1 := updateForm_coherent dom rows hc
  have e2 := updateForm_coherent dom' _ hc'
  rw [e1, e2, hamounts, hmiss]
  exact ⟨rfl, rfl⟩

theorem nonpositive_row_never_blocks_witness :
    rowMissingOf (([(⟨"-5", "x", "y"⟩ : Row)]).get ⟨0, Nat.zero_lt_one⟩) = 0 ∧
      (updateForm (domOfRows ([⟨"-5", "x", "y"⟩].set 0 ⟨"-5", "", ""⟩))).1.submitDisabled
        = (updateForm (domOfRows [⟨"-5", "x", "y"⟩])).1.submitDisabled := by
  have H := nonpositive_row_never_blocks [⟨"-5", "x", "y"⟩] 0 Nat.zero_lt_one (by decide) "" ""
  exact ⟨H.1, (H.2 (domOfRows _) (domOfRows _) (by decide) (by decide)).1⟩

/-- C5: for the single line item (amount "-5", empty account, empty
description), `updateForm` displays the total "-5.00" and sets the submit
control enabled: the row contributes no required-field violation (its amount
is not strictly positive), and the total is non-zero although negative. -/
theorem negative_single_row_scenario :
    (updateForm (domOfRows [⟨"-5", "", ""⟩])).1.totalDisplay = "-5.00" ∧
      (updateForm (domOfRows [⟨"-5", "", ""⟩])).1.submitDisabled = false ∧
      rowMissingOf ⟨"-5", "", ""⟩ = 0 ∧
      rowsTotal [(⟨"-5", "", ""⟩ : Row)] ≠ 0 :=
  ⟨by decide, by decide, by decide, rowsTotal_ne_zero [⟨"-5", "", ""⟩] (by decide)⟩

/-- C6: the page-load handler unconditionally sets the submit control
disabled, on every DOM state, before any validation pass has run. -/
theorem onload_disables_submit (dom : Dom) : (onload dom).submitDisabled = true := rfl

/-- C7: on any DOM state whose form has the conventionally named fields for
every row indexed by the class-`"amount"` elements, `updateForm` raises no
error; and an amount that fails to parse is normalized to a zero
contribution. -/
theorem updateForm_no_error :
    (∀ dom : Dom, fieldsPresent dom → (updateForm dom).2 = false) ∧
      ∀ v, parseFloat v = none → amountContrib v = 0 := by
  constructor
  · intro dom h
    rw [updateForm_eq]
    have hs : (missingRequired
        { dom with totalDisplay := toFixed2 (totalOf dom.amountElems) }).isSome = true := by
      unfold missingRequired
      exact missingRequiredAux_isSome _ _ fun i hi => h i (List.mem_range.1 hi)
    obtain ⟨m, hm⟩ := Option.isSome_iff_exists.1 hs
    rw [hm]
    by_cases hcond : (totalOf dom.amountElems).isZero = true ∨ 0 < m
    · simp [hcond]
    · simp [hcond]
  · intro v hv
    unfold amountContrib
    rw [hv]
    exact Decimal.val_zero

theorem updateForm_no_error_witness :
    (updateForm (domOfRows [⟨"12", "acct", "desc"⟩, ⟨"oops", "", ""⟩])).2 = false ∧
      amountContrib "oops" = 0 :=
  ⟨updateForm_no_error.1 _ (by decide), updateForm_no_error.2 "oops" (by decide)⟩

/-- C8: the side effects of `updateForm` are limited to the displayed total
and the submit control: the class-`"amount"` element values and the form's
named fields (every line item's amount, account and description) are
unchanged by every invocation. -/
theorem updateForm_frame (dom : Dom) :
    (updateForm dom).1.amountElems = dom.amountElems ∧
      (updateForm dom).1.formField = dom.formField :=
  ⟨updateForm_amountElems dom, updateForm_formField dom⟩

/-- C9: an amount string with a numeric prefix followed by trailing
non-numeric characters, such as "10abc", is not unparseable: it parses to
its prefix value 10, contributes that value to the total, and since the
prefix is strictly positive the row is subject to the required-field checks
(here the empty account yields a violation and submission is blocked even
though the displayed total is "10.00"). -/
theorem parseFloat_numeric_prefix :
    (parseFloat "10abc").map Decimal.val = some 10 ∧
      jsPos (parseFloat "10abc") = true ∧
      amountContrib "10abc" = 10 ∧
      (updateForm (domOfRows [⟨"10abc", "", "desc"⟩])).1.totalDisplay = "10.00" ∧
      (updateForm (domOfRows [⟨"10abc", "", "desc"⟩])).1.submitDisabled = true ∧
      rowMissingOf ⟨"10abc", "", "desc"⟩ = 1 := by
  have hp : parseFloat "10abc" = some ⟨10, 0⟩ := by decide
  have hval : (Decimal.mk 10 0).val = 10 := by unfold Decimal.val; norm_num
  refine ⟨?_, by decide, ?_, by decide, by decide, by decide⟩
  · rw [hp]
    show some (Decimal.mk 10 0).val = some 10
    rw [hval]
  · unfold amountContrib
    rw [hp, Option.getD_some, hval]

/-- C10: when, for every index `i`, the form field named `"i:amount"` holds
the value of the `i`-th class-`"amount"` element, the violation loop of
`updateForm` computes the same result as a loop reading the amounts from the
class-`"amount"` elements, so the displayed total and the required-field
check are computed from the same data. -/
theorem missingRequired_reads_same_amounts (dom : Dom)
    (h : ∀ i, (hi : i < dom.amountElems.length) →
      dom.formField (fieldName i "amount") = some (dom.amountElems.get ⟨i, hi⟩)) :
    missingRequired dom = missingRequiredElems dom := by
  unfold missingRequired missingRequiredElems
  have key : ∀ is : List ℕ, (∀ i ∈ is, i < dom.amountElems.length) →
      missingRequiredAux dom.formField is
        = missingRequiredElemsAux dom.amountElems dom.formField is := by
    intro is
    induction is with
    | nil => intro _; rfl
    | cons row rest ih =>
      intro hb
      have hr : row < dom.amountElems.length := hb row (List.mem_cons_self row rest)
      have hrest := ih fun i hi => hb i (List.mem_cons_of_mem row hi)
      have hg : dom.amountElems.getD row "" = dom.amountElems.get ⟨row, hr⟩ := by
        rw [List.getD_eq_getElem _ _ hr, List.get_eq_getElem]
      simp only [missingRequiredAux, missingRequiredElemsAux, h row hr, hrest, hg]
      rfl
  exact key _ fun i hi => List.mem_range.1 hi

theorem missingRequired_reads_same_amounts_witness :
    missingRequired (domOfRows [⟨"7", "a", "b"⟩, ⟨"x", "", ""⟩])
      = missingRequiredElems (domOfRows [⟨"7", "a", "b"⟩, ⟨"x", "", ""⟩]) :=
  missingRequired_reads_same_amounts _ (by decide)

end Redovisa
